import Mathlib

/-!
Verification of `minidot.py`, a thin pipeline driver that
(1) concatenates FASTA input files into one record per file while writing a
length table, (2) invokes an external aligner on the concatenated file, and
(3) invokes an external renderer on the aligner output.

The script is embedded as a trace-producing function: the observable behaviour
of one run is the list of filesystem/subprocess events it performs together
with the process exit code.  Python strings are Lean `String`s, Python lists
are Lean `List`s, and the `pysam.FastaFile` view of an input file is an
oracle `String → Option (List (String × String))` mapping a path to its list
of `(reference name, sequence)` pairs (`none` models an open/parse failure).
Subprocess return codes are an oracle `List String → Option String → Int`
from (argv, stdout-redirect target) to the child's return code, mirroring
`subprocess.call`.
-/

namespace Minidot

/-- One observable event of a run: opening a file for writing, writing a
string to an open file, closing a file, a blocking `subprocess.call` with an
optional stdout-redirect target, or printing to stdout. -/
inductive Event where
  | openW : String → Event
  | write : String → String → Event
  | close : String → Event
  | call : List String → Option String → Event
  | print : List String → Event
deriving DecidableEq, Repr

/-- Embeds Python `s.split('.')` at the character level: the maximal groups of
characters between occurrences of `'.'` (adjacent dots give empty groups, and
the empty string splits to one empty group, exactly as in Python). -/
def pySplitDot : List Char → List (List Char)
  | [] => [[]]
  | c :: cs =>
    if c = '.' then [] :: pySplitDot cs
    else
      match pySplitDot cs with
      | [] => [[c]]
      | g :: gs => (c :: g) :: gs

/-- Embeds Python `s.split('.')[0]`. -/
def pySplitDotHead (s : String) : String :=
  String.mk ((pySplitDot s.data).headD [])

/-- Embeds POSIX `os.path.basename`: everything after the last `'/'`. -/
def osBasename (s : String) : String :=
  String.mk ((s.data.reverse.takeWhile (fun c => c ≠ '/')).reverse)

/-- Embeds line 34: `basename = os.path.basename(fasta).split('.')[0]`. -/
def basenameOf (p : String) : String :=
  pySplitDotHead (osBasename p)

/-- Embeds line 25: `prefix = args.output.split('.')[0]+'.'`. -/
def pfxOf (output : String) : String :=
  pySplitDotHead output ++ "."

/-- The command line as supplied by the caller: `none` / `false` means the
flag was not given.  `minidotr`, `output` and `fasta` are the positionals. -/
structure Cli where
  minidotr : String
  output : String
  fasta : List String
  mapper : Option String
  mode : Option String
  tmp : Option String
  width : Option String
  thick : Option String
  title : Option String
  noSelf : Bool
  strip : Bool
  identity : Option String
deriving DecidableEq, Repr

/-- The argparse namespace after `parser.parse_args()` (lines 9-24): every
option with a default has been filled in; `--title` has default `None`. -/
structure Args where
  minidotr : String
  output : String
  fasta : List String
  mapper : String
  mode : String
  tmp : String
  width : String
  thick : String
  title : Option String
  noSelf : Bool
  strip : Bool
  identity : String
deriving DecidableEq, Repr

/-- Embeds the `parser.add_argument(..., default=...)` declarations of
lines 9-22: unsupplied options take their documented defaults. -/
def parseArgs (c : Cli) : Args :=
  { minidotr := c.minidotr
    output := c.output
    fasta := c.fasta
    mapper := c.mapper.getD "minimap2"
    mode := c.mode.getD "asm10"
    tmp := c.tmp.getD "/tmp"
    width := c.width.getD "20"
    thick := c.thick.getD "2"
    title := c.title
    noSelf := c.noSelf
    strip := c.strip
    identity := c.identity.getD "0.0" }

/-- Embeds line 39: `tlen.write("%s\t%s\n" % (basename, len(seq)))`. -/
def tlenRow (b : String) (seq : String) : String :=
  b ++ "\t" ++ toString seq.length ++ "\n"

/-- Embeds line 40: `super_fasta.write(">%s\n%s\n" % (basename, "".join(join_seq)))`. -/
def faEntry (b : String) (seqs : List String) : String :=
  ">" ++ b ++ "\n" ++ String.join seqs ++ "\n"

/-- The write events performed for one successfully opened FASTA file
(lines 33-40): one `tlen` row per reference, in reference order, followed by
the single `super_fasta` entry for the file. -/
def fileEvents (pfx b : String) (refs : List (String × String)) : List Event :=
  refs.map (fun r => Event.write (pfx ++ "tlen") (tlenRow b r.2))
    ++ [Event.write (pfx ++ "fa") (faEntry b (refs.map Prod.snd))]

/-- Embeds the loop of lines 32-40 over the input FASTA paths: the events it
performs, and whether it ran to completion (`false` when `pysam.FastaFile`
fails on some input, which raises and stops the loop at that point). -/
def loopEvents (fs : String → Option (List (String × String))) (pfx : String) :
    List String → List Event × Bool
  | [] => ([], true)
  | p :: rest =>
    match fs p with
    | none => ([], false)
    | some refs =>
      let r := loopEvents fs pfx rest
      (fileEvents pfx (basenameOf p) refs ++ r.1, r.2)

/-- Embeds line 45's argument vector:
`[args.mapper, '-x', args.mode, '--no-long-join', '--dual=yes', '-P', prefix+'fa', prefix+'fa']`. -/
def mapperArgv (a : Args) : List String :=
  [a.mapper, "-x", a.mode, "--no-long-join", "--dual=yes", "-P",
   pfxOf a.output ++ "fa", pfxOf a.output ++ "fa"]

/-- Embeds lines 48-60: the renderer argument list, built from the base
`-i`, `-l`, `-o` triple and one `if` per style flag; Python truthiness makes a
string argument count as set exactly when it is non-empty, and `--title`
(default `None`) count as set exactly when a non-empty string was parsed. -/
def Rargs (a : Args) : List String :=
  ["-i", pfxOf a.output ++ "paf", "-l", pfxOf a.output ++ "tlen", "-o", a.output]
    ++ (if a.noSelf then ["--no-self"] else [])
    ++ (if a.strip then ["--strip"] else [])
    ++ (match a.title with
        | some t => if t = "" then [] else ["--title", t]
        | none => [])
    ++ (if a.width = "" then [] else ["--width", a.width])
    ++ (if a.thick = "" then [] else ["--thick", a.thick])
    ++ (if a.identity = "" then [] else ["--identity", a.identity])

/-- Embeds the whole script body (lines 25-63) after argument parsing: the
event trace of the run and the process exit code.  `ret` gives each
`subprocess.call`'s return code; both call results are bound and, as in the
source, never read again.  A run whose FASTA loop raises terminates with the
interpreter's uncaught-exception exit code 1 and performs nothing further;
a run that completes ends with exit code 0 regardless of the call results. -/
def run (fs : String → Option (List (String × String)))
    (ret : List String → Option String → Int) (a : Args) : List Event × Int :=
  let pfx := pfxOf a.output
  let pre := [Event.openW (pfx ++ "fa"), Event.openW (pfx ++ "tlen")]
  match loopEvents fs pfx a.fasta with
  | (evs, false) => (pre ++ evs, 1)
  | (evs, true) =>
    let _retMapper := ret (mapperArgv a) (some (pfx ++ "paf"))
    let _retRenderer := ret ([a.minidotr] ++ Rargs a) none
    (pre ++ evs ++
      [Event.close (pfx ++ "tlen"), Event.openW (pfx ++ "paf"),
       Event.call (mapperArgv a) (some (pfx ++ "paf")), Event.close (pfx ++ "paf"),
       Event.print (Rargs a), Event.call ([a.minidotr] ++ Rargs a) none], 0)

/-- The data strings written to `path`, in trace order. -/
def writesTo (evs : List Event) (path : String) : List String :=
  evs.filterMap fun e =>
    match e with
    | Event.write p d => if p = path then some d else none
    | _ => none

/-- The subprocess invocations of a trace, in order, as (argv, stdout target). -/
def callsOf (evs : List Event) : List (List String × Option String) :=
  evs.filterMap fun e =>
    match e with
    | Event.call argv out => some (argv, out)
    | _ => none

/-! ### Basic lemmas about the embedding -/

lemma pySplitDot_ne_nil (l : List Char) : pySplitDot l ≠ [] := by
  match l with
  | [] => simp [pySplitDot]
  | c :: cs =>
    by_cases h : c = '.'
    · simp [pySplitDot, h]
    · simp only [pySplitDot, if_neg h]
      cases hcs : pySplitDot cs with
      | nil => simp
      | cons g gs => simp

lemma pySplitDot_headD (l : List Char) :
    (pySplitDot l).headD [] = l.takeWhile (fun c => c ≠ '.') := by
  induction l with
  | nil => simp [pySplitDot]
  | cons c cs ih =>
    by_cases h : c = '.'
    · simp [pySplitDot, h]
    · obtain ⟨g, gs, hg⟩ := List.exists_cons_of_ne_nil (pySplitDot_ne_nil cs)
      have hg' : g = cs.takeWhile (fun c => c ≠ '.') := by
        rw [hg] at ih
        simpa using ih
      simp only [pySplitDot, if_neg h, hg, List.headD_cons, List.takeWhile_cons]
      simp [h, hg']

/-- Python `s.split('.')[0]` is the longest prefix of `s` before a dot. -/
lemma pySplitDotHead_eq_takeWhile (s : String) :
    pySplitDotHead s = String.mk (s.data.takeWhile (fun c => c ≠ '.')) := by
  rw [pySplitDotHead, pySplitDot_headD]

lemma append_left_ne (p s t : String) (h : s.length ≠ t.length) : p ++ s ≠ p ++ t := by
  intro he
  apply h
  have hl := congrArg String.length he
  simp only [String.length_append] at hl
  omega

lemma writesTo_append (l₁ l₂ : List Event) (q : String) :
    writesTo (l₁ ++ l₂) q = writesTo l₁ q ++ writesTo l₂ q :=
  List.filterMap_append ..

lemma writesTo_flatten (L : List (List Event)) (q : String) :
    writesTo L.flatten q = (L.map (fun l => writesTo l q)).flatten := by
  induction L with
  | nil => rfl
  | cons l L ih => simp [writesTo_append, ih]

lemma callsOf_append (l₁ l₂ : List Event) :
    callsOf (l₁ ++ l₂) = callsOf l₁ ++ callsOf l₂ :=
  List.filterMap_append ..

lemma writesTo_fileEvents_fa (pfx b : String) (refs : List (String × String)) :
    writesTo (fileEvents pfx b refs) (pfx ++ "fa") = [faEntry b (refs.map Prod.snd)] := by
  have hne : pfx ++ "tlen" ≠ pfx ++ "fa" := append_left_ne _ _ _ (by decide)
  simp [fileEvents, writesTo, List.filterMap_append, List.filterMap_map, Function.comp_def, hne]

lemma writesTo_fileEvents_tlen (pfx b : String) (refs : List (String × String)) :
    writesTo (fileEvents pfx b refs) (pfx ++ "tlen")
      = refs.map (fun r => tlenRow b r.2) := by
  have hne : pfx ++ "fa" ≠ pfx ++ "tlen" := append_left_ne _ _ _ (by decide)
  simp only [fileEvents, writesTo, List.filterMap_append, List.filterMap_map, Function.comp_def,
    if_pos rfl, if_neg hne, List.filterMap_cons_none, List.filterMap_nil, List.append_nil]
  exact congrFun (List.filterMap_eq_map _) refs

lemma callsOf_fileEvents (pfx b : String) (refs : List (String × String)) :
    callsOf (fileEvents pfx b refs) = [] := by
  simp [fileEvents, callsOf, List.filterMap_append, List.filterMap_map, Function.comp_def]

lemma fileEvents_mem_write (pfx b : String) (refs : List (String × String)) :
    ∀ e ∈ fileEvents pfx b refs, ∃ q d, e = Event.write q d := by
  intro e he
  simp only [fileEvents, List.mem_append, List.mem_map, List.mem_singleton] at he
  rcases he with ⟨r, _, rfl⟩ | rfl
  · exact ⟨_, _, rfl⟩
  · exact ⟨_, _, rfl⟩

lemma loopEvents_ok (fs : String → Option (List (String × String))) (pfx : String)
    (l : List String) (h : ∀ p ∈ l, (fs p).isSome) :
    loopEvents fs pfx l
      = ((l.map (fun p => fileEvents pfx (basenameOf p) ((fs p).getD []))).flatten, true) := by
  induction l with
  | nil => rfl
  | cons p rest ih =>
    have hp : (fs p).isSome := h p (List.mem_cons_self ..)
    obtain ⟨refs, hrefs⟩ := Option.isSome_iff_exists.mp hp
    have hrest := ih (fun q hq => h q (List.mem_cons_of_mem _ hq))
    simp [loopEvents, hrefs, hrest]

lemma loopEvents_fail (fs : String → Option (List (String × String))) (pfx : String)
    (l₁ : List String) (p : String) (l₂ : List String)
    (h₁ : ∀ q ∈ l₁, (fs q).isSome) (h₂ : fs p = none) :
    loopEvents fs pfx (l₁ ++ p :: l₂)
      = ((l₁.map (fun q => fileEvents pfx (basenameOf q) ((fs q).getD []))).flatten, false) := by
  induction l₁ with
  | nil => simp [loopEvents, h₂]
  | cons q rest ih =>
    have hq : (fs q).isSome := h₁ q (List.mem_cons_self ..)
    obtain ⟨refs, hrefs⟩ := Option.isSome_iff_exists.mp hq
    have hrest := ih (fun r hr => h₁ r (List.mem_cons_of_mem _ hr))
    simp [loopEvents, hrefs, hrest]

lemma loopEvents_snd (fs : String → Option (List (String × String))) (pfx : String)
    (l : List String) :
    (loopEvents fs pfx l).2 = l.all (fun p => (fs p).isSome) := by
  induction l with
  | nil => rfl
  | cons p rest ih =>
    cases hp : fs p with
    | none => simp [loopEvents, hp]
    | some refs => simp [loopEvents, hp, ih]

lemma loopEvents_mem_write (fs : String → Option (List (String × String))) (pfx : String)
    (l : List String) :
    ∀ e ∈ (loopEvents fs pfx l).1, ∃ q d, e = Event.write q d := by
  induction l with
  | nil => intro e he; simp [loopEvents] at he
  | cons p rest ih =>
    intro e he
    cases hp : fs p with
    | none => rw [loopEvents, hp] at he; simp at he
    | some refs =>
      rw [loopEvents, hp] at he
      simp only [List.mem_append] at he
      rcases he with he | he
      · exact fileEvents_mem_write _ _ _ e he
      · exact ih e he

/-- Characterization of a run whose every FASTA input opens and parses. -/
lemma run_ok (fs : String → Option (List (String × String)))
    (ret : List String → Option String → Int) (a : Args)
    (h : ∀ p ∈ a.fasta, (fs p).isSome) :
    run fs ret a =
      ([Event.openW (pfxOf a.output ++ "fa"), Event.openW (pfxOf a.output ++ "tlen")]
        ++ (a.fasta.map
              (fun p => fileEvents (pfxOf a.output) (basenameOf p) ((fs p).getD []))).flatten
        ++ [Event.close (pfxOf a.output ++ "tlen"), Event.openW (pfxOf a.output ++ "paf"),
            Event.call (mapperArgv a) (some (pfxOf a.output ++ "paf")),
            Event.close (pfxOf a.output ++ "paf"), Event.print (Rargs a),
            Event.call ([a.minidotr] ++ Rargs a) none], 0) := by
  rw [run, loopEvents_ok fs (pfxOf a.output) a.fasta h]

/-- Characterization of a run whose FASTA loop raises at input `p`. -/
lemma run_fail (fs : String → Option (List (String × String)))
    (ret : List String → Option String → Int) (a : Args)
    (l₁ : List String) (p : String) (l₂ : List String) (he : a.fasta = l₁ ++ p :: l₂)
    (h₁ : ∀ q ∈ l₁, (fs q).isSome) (h₂ : fs p = none) :
    run fs ret a =
      ([Event.openW (pfxOf a.output ++ "fa"), Event.openW (pfxOf a.output ++ "tlen")]
        ++ (l₁.map
              (fun q => fileEvents (pfxOf a.output) (basenameOf q) ((fs q).getD []))).flatten,
       1) := by
  rw [run, he, loopEvents_fail fs (pfxOf a.output) l₁ p l₂ h₁ h₂]

lemma flatten_singletons {α β : Type} (f : α → β) (l : List α) :
    (l.map (fun a => [f a])).flatten = l.map f := by
  induction l with
  | nil => rfl
  | cons a l ih => simp [ih]

/-- The concatenated-record file of a completed run holds exactly the per-file
entries, in input order. -/
lemma run_writesTo_fa (fs : String → Option (List (String × String)))
    (ret : List String → Option String → Int) (a : Args)
    (h : ∀ p ∈ a.fasta, (fs p).isSome) :
    writesTo (run fs ret a).1 (pfxOf a.output ++ "fa")
      = a.fasta.map (fun p => faEntry (basenameOf p) (((fs p).getD []).map Prod.snd)) := by
  rw [run_ok fs ret a h]
  simp only [writesTo_append, writesTo_flatten, List.map_map, Function.comp_def,
    writesTo_fileEvents_fa]
  simp [writesTo, flatten_singletons]

/-- The length-table file of a completed run holds exactly the per-sequence
rows, grouped by file in input order. -/
lemma run_writesTo_tlen (fs : String → Option (List (String × String)))
    (ret : List String → Option String → Int) (a : Args)
    (h : ∀ p ∈ a.fasta, (fs p).isSome) :
    writesTo (run fs ret a).1 (pfxOf a.output ++ "tlen")
      = (a.fasta.map
          (fun p => ((fs p).getD []).map (fun r => tlenRow (basenameOf p) r.2))).flatten := by
  rw [run_ok fs ret a h]
  simp only [writesTo_append, writesTo_flatten, List.map_map, Function.comp_def,
    writesTo_fileEvents_tlen]
  simp [writesTo]

/-! ### Test fixtures -/

/-- Fixture: a FASTA store with a one-sequence file and a two-sequence file;
every other path fails to open. -/
def fs0 : String → Option (List (String × String)) := fun p =>
  if p = "a.fa" then some [("s1", "ACGT")]
  else if p = "b.fa" then some [("t1", "AC"), ("t2", "GGG")]
  else none

/-- Fixture: every subprocess call returns 0. -/
def ret0 : List String → Option String → Int := fun _ _ => 0

/-- Fixture: every subprocess call returns 1. -/
def ret1 : List String → Option String → Int := fun _ _ => 1

/-- Fixture: the argparse namespace of a default-flag run on two files. -/
def args0 : Args :=
  { minidotr := "minidot.R", output := "out.pdf", fasta := ["a.fa", "b.fa"]
    mapper := "minimap2", mode := "asm10", tmp := "/tmp", width := "20", thick := "2"
    title := none, noSelf := false, strip := false, identity := "0.0" }

/-- Fixture: as `args0` but the second input fails to open under `fs0`. -/
def args1 : Args := { args0 with fasta := ["a.fa", "missing.fa"] }

/-- Fixture: a command line supplying only the three positionals. -/
def cli0 : Cli :=
  { minidotr := "minidot.R", output := "out.pdf", fasta := ["a.fa"]
    mapper := none, mode := none, tmp := none, width := none, thick := none
    title := none, noSelf := false, strip := false, identity := none }

/-- Fixture: as `cli0` but with `--title "My Plot" --no-self` supplied. -/
def cli1 : Cli := { cli0 with title := some "My Plot", noSelf := true }

/-! ### The claims -/

/-- Claim C1: a run over N input FASTA files holding S sub-sequences in total
writes exactly N entries to the concatenated file P.fa (one per input file)
and exactly S rows to P.tlen, each row a tab-separated name and length. -/
theorem spec_C1 (fs : String → Option (List (String × String)))
    (ret : List String → Option String → Int) (a : Args)
    (h : ∀ p ∈ a.fasta, (fs p).isSome) :
    (writesTo (run fs ret a).1 (pfxOf a.output ++ "fa")).length = a.fasta.length ∧
    (writesTo (run fs ret a).1 (pfxOf a.output ++ "tlen")).length
      = (a.fasta.map (fun p => ((fs p).getD []).length)).sum ∧
    ∀ d ∈ writesTo (run fs ret a).1 (pfxOf a.output ++ "tlen"),
      ∃ (b : String) (n : Nat), d = b ++ "\t" ++ toString n ++ "\n" := by
  refine ⟨?_, ?_, ?_⟩
  · rw [run_writesTo_fa fs ret a h]
    simp
  · rw [run_writesTo_tlen fs ret a h]
    simp [List.length_flatten, List.map_map, Function.comp_def]
  · intro d hd
    rw [run_writesTo_tlen fs ret a h] at hd
    simp only [List.mem_flatten, List.mem_map] at hd
    obtain ⟨l, ⟨p, _, rfl⟩, hdl⟩ := hd
    obtain ⟨r, _, rfl⟩ := List.mem_map.mp hdl
    exact ⟨basenameOf p, r.2.length, rfl⟩

theorem spec_C1_witness :
    (writesTo (run fs0 ret0 args0).1 (pfxOf args0.output ++ "fa")).length
        = args0.fasta.length ∧
    (writesTo (run fs0 ret0 args0).1 (pfxOf args0.output ++ "tlen")).length
      = (args0.fasta.map (fun p => ((fs0 p).getD []).length)).sum ∧
    ∀ d ∈ writesTo (run fs0 ret0 args0).1 (pfxOf args0.output ++ "tlen"),
      ∃ (b : String) (n : Nat), d = b ++ "\t" ++ toString n ++ "\n" :=
  spec_C1 fs0 ret0 args0 (by decide)

/-- Claim C2: output order is determined by input order — concatenated-record
entries appear in input-file argument order, each entry concatenates its
file's sequences in file order, and length-table rows appear in encounter
order across files, grouped per file. -/
theorem spec_C2 (fs : String → Option (List (String × String)))
    (ret : List String → Option String → Int) (a : Args)
    (h : ∀ p ∈ a.fasta, (fs p).isSome) :
    writesTo (run fs ret a).1 (pfxOf a.output ++ "fa")
      = a.fasta.map (fun p => faEntry (basenameOf p) (((fs p).getD []).map Prod.snd)) ∧
    writesTo (run fs ret a).1 (pfxOf a.output ++ "tlen")
      = (a.fasta.map
          (fun p => ((fs p).getD []).map (fun r => tlenRow (basenameOf p) r.2))).flatten :=
  ⟨run_writesTo_fa fs ret a h, run_writesTo_tlen fs ret a h⟩

theorem spec_C2_witness :
    writesTo (run fs0 ret0 args0).1 (pfxOf args0.output ++ "fa")
      = args0.fasta.map (fun p => faEntry (basenameOf p) (((fs0 p).getD []).map Prod.snd)) ∧
    writesTo (run fs0 ret0 args0).1 (pfxOf args0.output ++ "tlen")
      = (args0.fasta.map
          (fun p => ((fs0 p).getD []).map (fun r => tlenRow (basenameOf p) r.2))).flatten :=
  spec_C2 fs0 ret0 args0 (by decide)

/-- Claim C3: the name used for a file's concatenated entry and repeated in
its length-table rows is the file's basename truncated at the first dot
(so `genome.fa.gz` yields `genome`). -/
theorem spec_C3 (fs : String → Option (List (String × String)))
    (ret : List String → Option String → Int) (a : Args)
    (h : ∀ p ∈ a.fasta, (fs p).isSome) :
    (∀ q : String,
      basenameOf q = String.mk ((osBasename q).data.takeWhile (fun c => c ≠ '.'))) ∧
    basenameOf "genome.fa.gz" = "genome" ∧
    basenameOf "some/dir/genome.fa.gz" = "genome" ∧
    writesTo (run fs ret a).1 (pfxOf a.output ++ "fa")
      = a.fasta.map (fun q => faEntry (basenameOf q) (((fs q).getD []).map Prod.snd)) ∧
    writesTo (run fs ret a).1 (pfxOf a.output ++ "tlen")
      = (a.fasta.map
          (fun q => ((fs q).getD []).map (fun r => tlenRow (basenameOf q) r.2))).flatten := by
  refine ⟨?_, by decide, by decide, run_writesTo_fa fs ret a h, run_writesTo_tlen fs ret a h⟩
  intro q
  rw [basenameOf, pySplitDotHead_eq_takeWhile]

theorem spec_C3_witness :
    (∀ q : String,
      basenameOf q = String.mk ((osBasename q).data.takeWhile (fun c => c ≠ '.'))) ∧
    basenameOf "genome.fa.gz" = "genome" ∧
    basenameOf "some/dir/genome.fa.gz" = "genome" ∧
    writesTo (run fs0 ret0 args0).1 (pfxOf args0.output ++ "fa")
      = args0.fasta.map (fun q => faEntry (basenameOf q) (((fs0 q).getD []).map Prod.snd)) ∧
    writesTo (run fs0 ret0 args0).1 (pfxOf args0.output ++ "tlen")
      = (args0.fasta.map
          (fun q => ((fs0 q).getD []).map (fun r => tlenRow (basenameOf q) r.2))).flatten :=
  spec_C3 fs0 ret0 args0 (by decide)

lemma callsOf_flatten (L : List (List Event)) :
    callsOf L.flatten = (L.map callsOf).flatten := by
  induction L with
  | nil => rfl
  | cons l L ih => simp [callsOf_append, ih]

lemma pfxOf_append (out s : String) :
    pfxOf out ++ s = pySplitDotHead out ++ ("." ++ s) := by
  rw [pfxOf, String.append_assoc]

/-- Claim C4: with output path O and P the part of O before the first dot,
the aligner is the first of exactly two subprocess invocations, called as
`mapper -x mode --no-long-join --dual=yes -P P.fa P.fa` with stdout sent to
P.paf, where mapper and mode default to minimap2 and asm10. -/
theorem spec_C4 (fs : String → Option (List (String × String)))
    (ret : List String → Option String → Int) (c : Cli)
    (h : ∀ p ∈ c.fasta, (fs p).isSome) :
    callsOf (run fs ret (parseArgs c)).1
      = [([c.mapper.getD "minimap2", "-x", c.mode.getD "asm10", "--no-long-join",
           "--dual=yes", "-P", pySplitDotHead c.output ++ ".fa",
           pySplitDotHead c.output ++ ".fa"],
          some (pySplitDotHead c.output ++ ".paf")),
         ([c.minidotr] ++ Rargs (parseArgs c), none)] := by
  have hfa : ("." ++ "fa" : String) = ".fa" := rfl
  have hpaf : ("." ++ "paf" : String) = ".paf" := rfl
  rw [run_ok fs ret (parseArgs c) h]
  simp only [callsOf_append, callsOf_flatten, List.map_map, Function.comp_def,
    callsOf_fileEvents]
  simp [callsOf, mapperArgv, parseArgs, pfxOf_append, hfa, hpaf]

theorem spec_C4_witness :
    callsOf (run fs0 ret0 (parseArgs cli0)).1
      = [([cli0.mapper.getD "minimap2", "-x", cli0.mode.getD "asm10", "--no-long-join",
           "--dual=yes", "-P", pySplitDotHead cli0.output ++ ".fa",
           pySplitDotHead cli0.output ++ ".fa"],
          some (pySplitDotHead cli0.output ++ ".paf")),
         ([cli0.minidotr] ++ Rargs (parseArgs cli0), none)] :=
  spec_C4 fs0 ret0 cli0 (by decide)

/-- Claim C5 counterexample: on a command line that does not supply --width,
the renderer argument list nevertheless contains --width (argparse fills in
the truthy default "20", and the forwarding test is on truthiness, not on
whether the flag was supplied), so the flags are not forwarded exactly when
supplied. -/
theorem spec_C5_counterexample :
    cli0.width = none ∧ "--width" ∈ Rargs (parseArgs cli0) := by decide

/-- Claim C5 as amended: the renderer argument list is the base
`-i P.paf -l P.tlen -o output` followed by --no-self and --strip exactly when
supplied, --title t exactly when a non-empty title was supplied, and
--width, --thick, --identity whenever their value (the supplied one, or the
defaults 20, 2, 0.0 when unsupplied) is non-empty — so those three are
forwarded even when not supplied.  In particular a run with
`--title "My Plot" --no-self` forwards `--title My Plot` and `--no-self`
but not `--strip`. -/
theorem spec_C5_amended (c : Cli) :
    Rargs (parseArgs c)
      = ["-i", pySplitDotHead c.output ++ ".paf", "-l", pySplitDotHead c.output ++ ".tlen",
         "-o", c.output]
        ++ (if c.noSelf then ["--no-self"] else [])
        ++ (if c.strip then ["--strip"] else [])
        ++ (match c.title with
            | some t => if t = "" then [] else ["--title", t]
            | none => [])
        ++ (if c.width.getD "20" = "" then [] else ["--width", c.width.getD "20"])
        ++ (if c.thick.getD "2" = "" then [] else ["--thick", c.thick.getD "2"])
        ++ (if c.identity.getD "0.0" = "" then []
            else ["--identity", c.identity.getD "0.0"]) ∧
    Rargs (parseArgs cli1)
      = ["-i", "out.paf", "-l", "out.tlen", "-o", "out.pdf", "--no-self",
         "--title", "My Plot", "--width", "20", "--thick", "2", "--identity", "0.0"] := by
  have hpaf : ("." ++ "paf" : String) = ".paf" := rfl
  have htlen : ("." ++ "tlen" : String) = ".tlen" := rfl
  refine ⟨?_, by decide⟩
  simp [Rargs, parseArgs, pfxOf_append, hpaf, htlen]

/-- Claim C6 counterexample: a run whose every subprocess call (including the
final renderer invocation) returns 1 still exits with code 0 — the script
discards the return value of subprocess.call and falls off the end of the
module, so the process exit code is not the last call's return code. -/
theorem spec_C6_counterexample :
    (run fs0 ret1 args0).2 ≠ ret1 ([args0.minidotr] ++ Rargs args0) none := by decide

/-- Claim C6 as amended: the process exit code is 0 whenever every input
FASTA opens and parses, independent of both subprocess return codes, and 1
(the interpreter's uncaught-exception code) otherwise. -/
theorem spec_C6_amended (fs : String → Option (List (String × String)))
    (ret : List String → Option String → Int) (a : Args) :
    (run fs ret a).2 = if a.fasta.all (fun p => (fs p).isSome) then 0 else 1 := by
  have hs := loopEvents_snd fs (pfxOf a.output) a.fasta
  rcases hlp : loopEvents fs (pfxOf a.output) a.fasta with ⟨evs, b⟩
  rw [hlp] at hs
  simp only [run, hlp]
  cases b
  · simp [← hs]
  · simp [← hs]

/-- Claim C7 counterexample: when the second of two inputs fails to open, the
run does abort, yet partial output exists — the concatenated file already
holds the first file's entry and the length table its row (both files were
opened for writing before any input was read). -/
theorem spec_C7_counterexample :
    (run fs0 ret0 args1).2 = 1 ∧
    writesTo (run fs0 ret0 args1).1 (pfxOf args1.output ++ "fa") = [">a\nACGT\n"] ∧
    writesTo (run fs0 ret0 args1).1 (pfxOf args1.output ++ "tlen") = ["a\t4\n"] ∧
    Event.openW (pfxOf args1.output ++ "fa") ∈ (run fs0 ret0 args1).1 := by decide

/-- Claim C7 as amended: if opening or parsing an input FASTA fails, the run
aborts immediately with no recovery — no subprocess is invoked and no later
input is touched — but partial output can remain: both output files were
already created, and the trace keeps every write made for the inputs that
preceded the failing one. -/
theorem spec_C7_amended (fs : String → Option (List (String × String)))
    (ret : List String → Option String → Int) (a : Args)
    (l₁ : List String) (p : String) (l₂ : List String) (he : a.fasta = l₁ ++ p :: l₂)
    (h₁ : ∀ q ∈ l₁, (fs q).isSome) (h₂ : fs p = none) :
    (run fs ret a).2 = 1 ∧
    callsOf (run fs ret a).1 = [] ∧
    (run fs ret a).1
      = [Event.openW (pfxOf a.output ++ "fa"), Event.openW (pfxOf a.output ++ "tlen")]
        ++ (l₁.map
              (fun q => fileEvents (pfxOf a.output) (basenameOf q) ((fs q).getD []))).flatten := by
  rw [run_fail fs ret a l₁ p l₂ he h₁ h₂]
  refine ⟨rfl, ?_, rfl⟩
  simp only [callsOf_append, callsOf_flatten, List.map_map, Function.comp_def,
    callsOf_fileEvents]
  simp [callsOf]

theorem spec_C7_witness :
    (run fs0 ret0 args1).2 = 1 ∧
    callsOf (run fs0 ret0 args1).1 = [] ∧
    (run fs0 ret0 args1).1
      = [Event.openW (pfxOf args1.output ++ "fa"), Event.openW (pfxOf args1.output ++ "tlen")]
        ++ (["a.fa"].map
              (fun q => fileEvents (pfxOf args1.output) (basenameOf q)
                ((fs0 q).getD []))).flatten :=
  spec_C7_amended fs0 ret0 args1 ["a.fa"] "missing.fa" [] (by decide) (by decide) (by decide)

/-- Claim C8: the driver never branches on the aligner's (or any call's)
return code — for any two return-code oracles the whole run, and in
particular the renderer invocation, is identical. -/
theorem spec_C8 (fs : String → Option (List (String × String)))
    (a : Args) (ret ret' : List String → Option String → Int) :
    run fs ret a = run fs ret' a ∧
    callsOf (run fs ret a).1 = callsOf (run fs ret' a).1 :=
  ⟨rfl, rfl⟩

/-- Claim C9: --tmp is an unused placeholder — two command lines differing
only in --tmp give runs with identical traces (hence identical P.fa and
P.tlen writes and identical subprocess argument vectors) and exit codes. -/
theorem spec_C9 (fs : String → Option (List (String × String)))
    (ret : List String → Option String → Int) (c : Cli) (t : Option String) :
    run fs ret (parseArgs { c with tmp := t }) = run fs ret (parseArgs c) ∧
    writesTo (run fs ret (parseArgs { c with tmp := t })).1 (pfxOf c.output ++ "fa")
      = writesTo (run fs ret (parseArgs c)).1 (pfxOf c.output ++ "fa") ∧
    writesTo (run fs ret (parseArgs { c with tmp := t })).1 (pfxOf c.output ++ "tlen")
      = writesTo (run fs ret (parseArgs c)).1 (pfxOf c.output ++ "tlen") ∧
    callsOf (run fs ret (parseArgs { c with tmp := t })).1
      = callsOf (run fs ret (parseArgs c)).1 :=
  ⟨rfl, rfl, rfl, rfl⟩

/-- Claim C10: in every completed run the length-table handle is closed
before the aligner is invoked, while the concatenated-sequence handle is
never closed at all — the aligner reads P.fa while its writer is open. -/
theorem spec_C10 (fs : String → Option (List (String × String)))
    (ret : List String → Option String → Int) (a : Args)
    (h : ∀ p ∈ a.fasta, (fs p).isSome) :
    (∃ l₁ l₂, (run fs ret a).1 = l₁ ++ Event.close (pfxOf a.output ++ "tlen") :: l₂ ∧
      Event.call (mapperArgv a) (some (pfxOf a.output ++ "paf")) ∈ l₂) ∧
    Event.close (pfxOf a.output ++ "fa") ∉ (run fs ret a).1 := by
  have htlen : pfxOf a.output ++ "fa" ≠ pfxOf a.output ++ "tlen" :=
    append_left_ne _ _ _ (by decide)
  have hpaf : pfxOf a.output ++ "fa" ≠ pfxOf a.output ++ "paf" :=
    append_left_ne _ _ _ (by decide)
  rw [run_ok fs ret a h]
  constructor
  · refine ⟨[Event.openW (pfxOf a.output ++ "fa"), Event.openW (pfxOf a.output ++ "tlen")]
      ++ (a.fasta.map
            (fun p => fileEvents (pfxOf a.output) (basenameOf p) ((fs p).getD []))).flatten,
      [Event.openW (pfxOf a.output ++ "paf"),
       Event.call (mapperArgv a) (some (pfxOf a.output ++ "paf")),
       Event.close (pfxOf a.output ++ "paf"), Event.print (Rargs a),
       Event.call ([a.minidotr] ++ Rargs a) none], ?_, ?_⟩
    · simp
    · simp
  · intro hmem
    simp only [List.append_assoc, List.mem_append, List.mem_cons, List.mem_flatten,
      List.mem_map, List.mem_singleton, List.not_mem_nil] at hmem
    rcases hmem with hmem | hmem | hmem
    · simp at hmem
    · obtain ⟨l, ⟨p, _, rfl⟩, hel⟩ := hmem
      obtain ⟨q, d, hqd⟩ := fileEvents_mem_write _ _ _ _ hel
      simp at hqd
    · simp [htlen, hpaf] at hmem

theorem spec_C10_witness :
    (∃ l₁ l₂, (run fs0 ret0 args0).1
        = l₁ ++ Event.close (pfxOf args0.output ++ "tlen") :: l₂ ∧
      Event.call (mapperArgv args0) (some (pfxOf args0.output ++ "paf")) ∈ l₂) ∧
    Event.close (pfxOf args0.output ++ "fa") ∉ (run fs0 ret0 args0).1 :=
  spec_C10 fs0 ret0 args0 (by decide)

end Minidot
